import Mathlib

/-!
# Verification of the D2Q9 LBM undulating-fin simulation

Shallow embedding of `src/scripts/undulating_fin_2d.py`.

The lattice Boltzmann core (equilibrium, BGK collision, periodic streaming,
the bounce-back loop, macroscopic recovery) is embedded exactly over `ℚ`
(the script's float arithmetic replaced by exact rationals), on the fixed
`nz × nx = 120 × 280` grid with the periodic indexing of `np.roll`
modelled by `ZMod`.  The fin geometry generator `update_fin_mask`, which
uses `sin`, `hypot` and rounding of real values, is embedded over `ℝ`.
-/

set_option maxHeartbeats 1000000

namespace Ripple

/-- Grid points in x (streamwise direction); `nx = 280` in the script. -/
abbrev nx : ℕ := 280

/-- Grid points in z (fin-width direction); `nz = 120` in the script. -/
abbrev nz : ℕ := 120

/-- Relaxation parameter `omega = 1.7` of the script, as an exact rational. -/
def omega : ℚ := 1.7

/-- x-components of the 9 discrete velocities (column 0 of the array `c`). -/
def cX (i : Fin 9) : ℤ :=
  match i.val with
  | 0 => 0
  | 1 => 1
  | 2 => 0
  | 3 => -1
  | 4 => 0
  | 5 => 1
  | 6 => -1
  | 7 => -1
  | _ => 1

/-- z-components of the 9 discrete velocities (column 1 of the array `c`). -/
def cZ (i : Fin 9) : ℤ :=
  match i.val with
  | 0 => 0
  | 1 => 0
  | 2 => 1
  | 3 => 0
  | 4 => -1
  | 5 => 1
  | 6 => 1
  | 7 => -1
  | _ => -1

/-- Lattice weights `w` of the script. -/
def w (i : Fin 9) : ℚ :=
  match i.val with
  | 0 => 4/9
  | 1 => 1/9
  | 2 => 1/9
  | 3 => 1/9
  | 4 => 1/9
  | 5 => 1/36
  | 6 => 1/36
  | 7 => 1/36
  | _ => 1/36

/-- The table `opposite = [0, 3, 4, 1, 2, 7, 8, 5, 6]`. -/
def opposite (i : Fin 9) : Fin 9 :=
  match i.val with
  | 0 => 0
  | 1 => 3
  | 2 => 4
  | 3 => 1
  | 4 => 2
  | 5 => 7
  | 6 => 8
  | 7 => 5
  | _ => 6

/-- A macroscopic field over the periodic grid, indexed `(z, x)` as in the
numpy arrays of shape `(nz, nx)`. -/
abbrev Field := ZMod nz → ZMod nx → ℚ

/-- The populations `f` of shape `(9, nz, nx)`. -/
abbrev Pop := Fin 9 → ZMod nz → ZMod nx → ℚ

/-- A boolean solid mask of shape `(nz, nx)`. -/
abbrev Mask := ZMod nz → ZMod nx → Bool

/-- `equilibrium(rho, ux, uz)` of the script:
`feq[i] = w[i] * rho * (1 + cu[i] + 0.5*cu[i]**2 - 1.5*usq)` with
`cu[i] = 3*(c[i,0]*ux + c[i,1]*uz)` and `usq = ux**2 + uz**2`. -/
def equilibrium (rho ux uz : Field) : Pop := fun i z x =>
  w i * rho z x *
    (1 + 3 * ((cX i : ℚ) * ux z x + (cZ i : ℚ) * uz z x)
       + 0.5 * (3 * ((cX i : ℚ) * ux z x + (cZ i : ℚ) * uz z x)) ^ 2
       - 1.5 * (ux z x ^ 2 + uz z x ^ 2))

/-- The static walls: `solid_static[0,:] = True`, `solid_static[-1,:] = True`
(rows `0` and `nz - 1 = 119`). -/
def solid_static : Mask := fun z _ => decide (z = 0 ∨ z = 119)

/-- The combined solid set of one step: `solid = solid_static | fin_mask`. -/
def combinedSolid (fin : Mask) : Mask := fun z x => solid_static z x || fin z x

/-- Phase 2 of `collide_and_stream`: `f[:] = (1.0 - omega) * f + omega * feq`. -/
def collide (F : Pop) (rho ux uz : Field) : Pop := fun i z x =>
  (1 - omega) * F i z x + omega * equilibrium rho ux uz i z x

/-- Phase 3 of `collide_and_stream`:
`f[i] = np.roll(np.roll(f[i], ci_x, axis=1), ci_z, axis=0)`, i.e. the
periodic shift with `f_new[i, z, x] = f_old[i, z - ci_z, x - ci_x]`. -/
def stream (F : Pop) : Pop := fun i z x =>
  F i (z - (cZ i : ZMod nz)) (x - (cX i : ZMod nx))

/-- One iteration of the bounce-back loop of phase 4, for loop index `i`:
at every solid node the pair `(f[i], f[opposite i])` is exchanged (the
script copies both rows before writing, so the exchange is simultaneous). -/
def swapAt (solid : Mask) (i : Fin 9) (F : Pop) : Pop := fun j z x =>
  if solid z x then
    if j = i then F (opposite i) z x
    else if j = opposite i then F i z x
    else F j z x
  else F j z x

/-- Phase 4 of `collide_and_stream`: the loop `for i in range(9)` performing
`swapAt` once for every directed index `i = 0, …, 8` in order. -/
def bounceBack (solid : Mask) (F : Pop) : Pop :=
  (List.finRange 9).foldl (fun G i => swapAt solid i G) F

/-- Phase 5, density: `rho[:, :] = np.sum(f, axis=0)`. -/
def recRho (F : Pop) : Field := fun z x => ∑ i, F i z x

/-- Phase 5, raw x-velocity before the solid forcing:
`ux = (Σ_i c[i,0]*f[i]) / rho` (the total `ℚ` convention `q / 0 = 0`
stands where the float code would silently produce `±inf`/`nan`). -/
def recUxRaw (F : Pop) : Field := fun z x =>
  (∑ i, (cX i : ℚ) * F i z x) / recRho F z x

/-- Phase 5, raw z-velocity before the solid forcing. -/
def recUzRaw (F : Pop) : Field := fun z x =>
  (∑ i, (cZ i : ℚ) * F i z x) / recRho F z x

/-- Phase 5, x-velocity after `ux[solid] = 0.0`. -/
def recUx (solid : Mask) (F : Pop) : Field := fun z x =>
  if solid z x then 0 else recUxRaw F z x

/-- Phase 5, z-velocity after `uz[solid] = 0.0`. -/
def recUz (solid : Mask) (F : Pop) : Field := fun z x =>
  if solid z x then 0 else recUzRaw F z x

/-- Phases 2–5 of `collide_and_stream` for a given combined solid mask,
returning `(f, rho, ux, uz)`.  The function is total: the script has no
error path, no instability detection and no exception; it always falls
through to `return f, rho, ux, uz, solid`. -/
def stepWithSolid (solid : Mask) (F : Pop) (rho ux uz : Field) :
    Pop × Field × Field × Field :=
  (bounceBack solid (stream (collide F rho ux uz)),
   recRho (bounceBack solid (stream (collide F rho ux uz))),
   recUx solid (bounceBack solid (stream (collide F rho ux uz))),
   recUz solid (bounceBack solid (stream (collide F rho ux uz))))

/-- `collide_and_stream` with the fresh fin mask of phase 1 supplied as an
argument (the geometry generator, which produces it from `t`, is embedded
separately over `ℝ` below). -/
def collide_and_stream (fin : Mask) (F : Pop) (rho ux uz : Field) :
    Pop × Field × Field × Field :=
  stepWithSolid (combinedSolid fin) F rho ux uz

/-- The constant density field `1` (initial `rho = np.ones`). -/
def oneField : Field := fun _ _ => 1

/-- The constant zero field (initial `ux`, `uz`). -/
def zeroField : Field := fun _ _ => 0

/-- The all-false mask (no fin / no solid anywhere). -/
def emptyMask : Mask := fun _ _ => false

/-- The uniform rest populations `f_i = w_i` at every node. -/
def restPop : Pop := fun i _ _ => w i

/-- The all-zero populations. -/
def zeroPop : Pop := fun _ _ _ => 0

/-- Concrete populations with `f_1 = 1` and every other direction `0`
at every node; used to evaluate the bounce-back loop at a solid node. -/
def popEastOne : Pop := fun i _ _ => if i = 1 then 1 else 0

/-- Concrete populations that put a single unit of east-moving mass at the
node `(z, x) = (0, 279)` and nothing anywhere else. -/
def popPulseEast : Pop := fun i z x => if i = 1 ∧ z = 0 ∧ x = 279 then 1 else 0

/-- Concrete populations proportional to the weights, concentrated at the
single node `(z, x) = (0, 279)`; its recovered velocity is zero. -/
def popPulseRest : Pop := fun i z x => w i * (if z = 0 ∧ x = 279 then 1 else 0)

/-! ## The fin geometry generator `update_fin_mask`, over `ℝ` -/

/-- Fin thickness `H_fin = 18` (grid cells). -/
def H_fin : ℝ := 18

/-- Wave amplitude `A_fin = 8` (grid cells). -/
def A_fin : ℝ := 8

/-- Spatial wavelength `lambda_fin = nx / 1.5`. -/
noncomputable def lambda_fin : ℝ := (nx : ℝ) / 1.5

/-- Temporal wave frequency `f_wave = 0.001` (cycles per time-step). -/
def f_wave : ℝ := 0.001

/-- Root offset `z_root = 8`. -/
def z_root : ℝ := 8

/-- Start of the active x-span, `x_start = 30`. -/
def x_start : ℕ := 30

/-- Exclusive end of the active x-span, `x_end = nx - 30 = 250`. -/
def x_end : ℕ := nx - 30

/-- Number of active columns `xs_local = xs[x_start:x_end]` (one entry per
`idx` with `xs_local[idx] = x_start + idx`). -/
def nActive : ℕ := x_end - x_start

/-- Number of thickness samples, `n_samples = int(max(6, 2 * H_fin))`
with the script's integer `H_fin = 18`. -/
def n_samples : ℕ := max 6 (2 * 18)

/-- The phase `2π((x - x_start)/lambda_fin - f_wave·t)` of the travelling
wave at active column `idx` (so `x - x_start = idx`). -/
noncomputable def phase (t : ℝ) (idx : ℕ) : ℝ :=
  2 * Real.pi * ((idx : ℝ) / lambda_fin - f_wave * t)

/-- The centerline `z_center = z_root + 0.5*H_fin + A_fin*sin(phase)`. -/
noncomputable def z_center (t : ℝ) (idx : ℕ) : ℝ :=
  z_root + 0.5 * H_fin + A_fin * Real.sin (phase t idx)

/-- The derivative estimate `dzdx`: one-sided differences at the two ends
of the active range, central differences `0.5*(z[idx+1] - z[idx-1])`
in between. -/
noncomputable def dzdx (t : ℝ) (idx : ℕ) : ℝ :=
  if idx = 0 then z_center t 1 - z_center t 0
  else if idx = nActive - 1 then z_center t (nActive - 1) - z_center t (nActive - 2)
  else 0.5 * (z_center t (idx + 1) - z_center t (idx - 1))

/-- The tangent norm `norm_t = np.hypot(tx, tz)` with `tx = 1.0` and
`tz = dzdx`, i.e. `sqrt(1² + dzdx²)`. -/
noncomputable def norm_t (t : ℝ) (idx : ℕ) : ℝ :=
  Real.sqrt (1 ^ 2 + dzdx t idx ^ 2)

/-- The unit normal `(nx_hat, nz_hat)` of the script: the documented
fallback `(0, 1)` when `norm_t == 0`, otherwise the tangent normalised and
rotated by -90°, giving `(dzdx/norm_t, -(1/norm_t))`. -/
noncomputable def normalHat (t : ℝ) (idx : ℕ) : ℝ × ℝ :=
  if norm_t t idx = 0 then (0, 1)
  else (dzdx t idx / norm_t t idx, -(1 / norm_t t idx))

/-- Sample offsets `s_vals = np.linspace(-0.5*H_fin, 0.5*H_fin, n_samples)`,
entry `k` being `-0.5*H_fin + k*(H_fin/(n_samples - 1))`. -/
noncomputable def s_val (k : ℕ) : ℝ :=
  -(0.5 * H_fin) + (k : ℝ) * (H_fin / ((n_samples : ℝ) - 1))

/-- The sampled x-coordinate `xk = x_c + nx_hat * s`. -/
noncomputable def xSample (t : ℝ) (idx k : ℕ) : ℝ :=
  ((x_start + idx : ℕ) : ℝ) + (normalHat t idx).1 * s_val k

/-- The sampled z-coordinate `zk = z_c + nz_hat * s`. -/
noncomputable def zSample (t : ℝ) (idx k : ℕ) : ℝ :=
  z_center t idx + (normalHat t idx).2 * s_val k

/-- The rounded column index `ix = int(round(xk))`. -/
noncomputable def ixOf (t : ℝ) (idx k : ℕ) : ℤ := round (xSample t idx k)

/-- The rounded row index `iz = int(round(zk))`. -/
noncomputable def izOf (t : ℝ) (idx k : ℕ) : ℤ := round (zSample t idx k)

/-- The fresh fin mask written by `update_fin_mask(t)`: node `(iz, ix)` is
marked iff some active column `idx` and some sample `k` round onto it and
pass the interior guard `0 < ix < nx-1 and 1 <= iz < nz-1`. -/
def fin_mask (t : ℝ) (iz ix : ℤ) : Prop :=
  ∃ idx, idx < nActive ∧ ∃ k, k < n_samples ∧
    0 < ixOf t idx k ∧ ixOf t idx k < (nx : ℤ) - 1 ∧
    1 ≤ izOf t idx k ∧ izOf t idx k < (nz : ℤ) - 1 ∧
    ix = ixOf t idx k ∧ iz = izOf t idx k

/-! ## Helper lemmas -/

/-- The nine-iteration bounce-back loop performs every opposite-pair
exchange twice at every solid node, so the whole phase is the identity. -/
lemma bounceBack_eq_id (solid : Mask) (F : Pop) : bounceBack solid F = F := by
  funext j z x
  show ((List.finRange 9).foldl (fun G i => swapAt solid i G) F) j z x = F j z x
  have h9 : List.finRange 9 = [0, 1, 2, 3, 4, 5, 6, 7, 8] := by decide
  rw [h9]
  simp only [List.foldl]
  by_cases h : solid z x
  · fin_cases j <;> simp [swapAt, h, opposite]
  · fin_cases j <;> simp [swapAt, h]

lemma sum_w : ∑ i, w i = 1 := by norm_num [Fin.sum_univ_succ, w]

lemma sum_cX_w : ∑ i, (cX i : ℚ) * w i = 0 := by
  norm_num [Fin.sum_univ_succ, w, cX]

lemma sum_cZ_w : ∑ i, (cZ i : ℚ) * w i = 0 := by
  norm_num [Fin.sum_univ_succ, w, cZ]

lemma sum_equilibrium (rho ux uz : Field) (z : ZMod nz) (x : ZMod nx) :
    ∑ i, equilibrium rho ux uz i z x = rho z x := by
  simp [Fin.sum_univ_succ, equilibrium, w, cX, cZ]
  ring

lemma equilibrium_rest_eq : equilibrium oneField zeroField zeroField = restPop := by
  funext i z x
  simp [equilibrium, oneField, zeroField, restPop]

lemma collide_rest : collide restPop oneField zeroField zeroField = restPop := by
  funext i z x
  rw [collide, equilibrium_rest_eq]
  simp [restPop]
  ring

lemma recRho_rest (z : ZMod nz) (x : ZMod nx) : recRho restPop z x = 1 := by
  rw [recRho]; exact sum_w

lemma recUxRaw_rest (z : ZMod nz) (x : ZMod nx) : recUxRaw restPop z x = 0 := by
  rw [recUxRaw]
  rw [show (∑ i, (cX i : ℚ) * restPop i z x) = 0 from sum_cX_w]
  exact zero_div _

lemma recUzRaw_rest (z : ZMod nz) (x : ZMod nx) : recUzRaw restPop z x = 0 := by
  rw [recUzRaw]
  rw [show (∑ i, (cZ i : ℚ) * restPop i z x) = 0 from sum_cZ_w]
  exact zero_div _

lemma recRho_pulse (z : ZMod nz) (x : ZMod nx) :
    recRho popPulseRest z x = if z = 0 ∧ x = 279 then 1 else 0 := by
  rw [recRho]
  rw [show (∑ i, popPulseRest i z x)
      = (∑ i, w i) * (if z = 0 ∧ x = 279 then (1 : ℚ) else 0) by
    rw [Finset.sum_mul]; rfl]
  rw [sum_w, one_mul]

lemma recUxRaw_pulse (z : ZMod nz) (x : ZMod nx) : recUxRaw popPulseRest z x = 0 := by
  rw [recUxRaw]
  rw [show (∑ i, (cX i : ℚ) * popPulseRest i z x)
      = (∑ i, (cX i : ℚ) * w i) * (if z = 0 ∧ x = 279 then (1 : ℚ) else 0) by
    rw [Finset.sum_mul]
    exact Finset.sum_congr rfl fun i _ => by rw [popPulseRest]; ring]
  rw [sum_cX_w, zero_mul, zero_div]

lemma recUzRaw_pulse (z : ZMod nz) (x : ZMod nx) : recUzRaw popPulseRest z x = 0 := by
  rw [recUzRaw]
  rw [show (∑ i, (cZ i : ℚ) * popPulseRest i z x)
      = (∑ i, (cZ i : ℚ) * w i) * (if z = 0 ∧ x = 279 then (1 : ℚ) else 0) by
    rw [Finset.sum_mul]
    exact Finset.sum_congr rfl fun i _ => by rw [popPulseRest]; ring]
  rw [sum_cZ_w, zero_mul, zero_div]

lemma collide_pulse (i : Fin 9) (z : ZMod nz) (x : ZMod nx) :
    collide popPulseRest (recRho popPulseRest) (recUxRaw popPulseRest)
      (recUzRaw popPulseRest) i z x = popPulseRest i z x := by
  rw [collide, equilibrium, recRho_pulse, recUxRaw_pulse, recUzRaw_pulse, popPulseRest]
  ring

lemma phase_period (t : ℝ) (idx : ℕ) :
    phase (t + 1 / f_wave) idx = phase t idx - 2 * Real.pi := by
  have hf : f_wave ≠ 0 := by norm_num [f_wave]
  have h : f_wave * (t + 1 / f_wave) = f_wave * t + 1 := by
    field_simp
    ring
  rw [phase, phase, h]
  ring

lemma z_center_period (t : ℝ) (idx : ℕ) :
    z_center (t + 1 / f_wave) idx = z_center t idx := by
  rw [z_center, z_center, phase_period, Real.sin_sub_two_pi]

lemma dzdx_period (t : ℝ) (idx : ℕ) : dzdx (t + 1 / f_wave) idx = dzdx t idx := by
  simp only [dzdx, z_center_period]

lemma norm_t_period (t : ℝ) (idx : ℕ) : norm_t (t + 1 / f_wave) idx = norm_t t idx := by
  simp only [norm_t, dzdx_period]

lemma normalHat_period (t : ℝ) (idx : ℕ) :
    normalHat (t + 1 / f_wave) idx = normalHat t idx := by
  simp only [normalHat, norm_t_period, dzdx_period]

lemma ixOf_period (t : ℝ) (idx k : ℕ) : ixOf (t + 1 / f_wave) idx k = ixOf t idx k := by
  simp only [ixOf, xSample, normalHat_period]

lemma izOf_period (t : ℝ) (idx k : ℕ) : izOf (t + 1 / f_wave) idx k = izOf t idx k := by
  simp only [izOf, zSample, normalHat_period, z_center_period]

/-! ## Claims -/

/-- Claim C1 (code_bug evaluation).  The claim says that after the
bounce-back phase, at every solid node, the population in direction `i`
equals the pre-phase population in direction `opposite i` (each pair
swapped exactly once).  The code's loop visits all nine indices, so each
pair is exchanged twice and nothing moves: at the solid node `(0, 0)` with
pre-phase `f_1 = 1`, `f_3 = 0`, the post-phase `f_1` is still `1`, not the
pre-phase `f_{opposite 1} = f_3 = 0` the claim requires. -/
theorem C1_bounce_back_pair_not_swapped :
    combinedSolid emptyMask 0 0 = true
  ∧ opposite 1 = 3
  ∧ popEastOne 3 0 0 = 0
  ∧ bounceBack (combinedSolid emptyMask) popEastOne 1 0 0 = 1 := by
  refine ⟨by decide, by decide, by simp [popEastOne], ?_⟩
  rw [bounceBack_eq_id]
  simp [popEastOne]

/-- Claim C2: the bounce-back loop of `collide_and_stream`, which performs
the copy-and-exchange once for index `i` and once again at `opposite i`,
composes to the identity: for every population state and every solid set
the populations after the bounce-back phase equal the populations after
the streaming phase at every node, solid nodes included. -/
theorem C2_bounce_back_phase_is_identity (solid : Mask) (F : Pop) :
    bounceBack solid (stream F) = stream F :=
  bounceBack_eq_id solid (stream F)

/-- Claim C3 (code_bug evaluation).  The claim says `step`/`advance` raises
a `NumericalInstabilityError` and halts when the recovered density is
non-positive or non-finite.  The embedded `collide_and_stream` is a total
function with no error outcome, exactly like the script, which divides by
`rho` unconditionally (`ux /= rho`) and returns.  Starting from all-zero
populations and fields, the recovered density is `0` at the fluid node
`(1, 1)` and the step still returns ordinary field values (the junk value
`0` of total division standing for the script's silent `nan`). -/
theorem C3_step_returns_at_zero_density :
    (collide_and_stream emptyMask zeroPop zeroField zeroField zeroField).2.1 1 1 = 0
  ∧ (collide_and_stream emptyMask zeroPop zeroField zeroField zeroField).2.2.1 1 1 = 0
  ∧ (collide_and_stream emptyMask zeroPop zeroField zeroField zeroField).2.2.2 1 1 = 0 := by
  have hcz : collide zeroPop zeroField zeroField zeroField = zeroPop := by
    funext i z x
    simp [collide, equilibrium, zeroPop, zeroField]
  have hstep : bounceBack (combinedSolid emptyMask)
      (stream (collide zeroPop zeroField zeroField zeroField)) = zeroPop := by
    rw [hcz, bounceBack_eq_id]; rfl
  refine ⟨?_, ?_, ?_⟩
  · show recRho _ 1 1 = 0
    rw [hstep, recRho]
    simp [zeroPop]
  · show recUx (combinedSolid emptyMask) _ 1 1 = 0
    rw [hstep, recUx, if_neg (by decide), recUxRaw]
    simp [zeroPop]
  · show recUz (combinedSolid emptyMask) _ 1 1 = 0
    rw [hstep, recUz, if_neg (by decide), recUzRaw]
    simp [zeroPop]

/-- Claim C4 (counterexample).  As stated the claim requires
`rho * ux = Σ_i c_{i,x} f_i` at every node, solid nodes included.  At the
solid wall node `(0, 0)`, one step from the east-moving pulse state leaves
post-step momentum `Σ_i c_{i,x} f_i = 1 - omega = -7/10 ≠ 0`, while the
recovery phase forces `ux = 0` there, so `rho * ux = 0`: the identity
fails at solid nodes. -/
theorem C4_solid_node_momentum_counterexample :
    combinedSolid emptyMask 0 0 = true
  ∧ (collide_and_stream emptyMask popPulseEast oneField zeroField zeroField).2.1 0 0
      * (collide_and_stream emptyMask popPulseEast oneField zeroField zeroField).2.2.1 0 0
    ≠ ∑ i, (cX i : ℚ) *
        (collide_and_stream emptyMask popPulseEast oneField zeroField zeroField).1 i 0 0 := by
  refine ⟨by decide, ?_⟩
  have hux : (collide_and_stream emptyMask popPulseEast oneField zeroField zeroField).2.2.1 0 0
      = 0 := by
    show recUx (combinedSolid emptyMask) (bounceBack (combinedSolid emptyMask)
      (stream (collide popPulseEast oneField zeroField zeroField))) 0 0 = 0
    rw [recUx, if_pos (by decide)]
  have hsum : (∑ i, (cX i : ℚ) *
      (collide_and_stream emptyMask popPulseEast oneField zeroField zeroField).1 i 0 0)
      = 1 - omega := by
    show (∑ i, (cX i : ℚ) * bounceBack (combinedSolid emptyMask)
      (stream (collide popPulseEast oneField zeroField zeroField)) i 0 0) = 1 - omega
    rw [bounceBack_eq_id]
    simp only [stream, collide, equilibrium_rest_eq, restPop]
    simp +decide [Fin.sum_univ_succ, w, cX, cZ, popPulseEast]
  rw [hux, hsum, mul_zero]
  norm_num [omega]

/-- Claim C4 (amended): after the macroscopic-recovery phase of every step,
the returned density satisfies `rho = Σ_i f_i` and, at every non-solid
node whose recovered density is nonzero, `rho * ux = Σ_i c_{i,x} f_i` and
`rho * uz = Σ_i c_{i,z} f_i` hold exactly (at solid nodes the recovery
phase forces `ux = uz = 0` instead). -/
theorem C4_recovery_moment_identities (fin : Mask) (F : Pop) (rho ux uz : Field)
    (z : ZMod nz) (x : ZMod nx)
    (hs : combinedSolid fin z x = false)
    (hr : recRho ((collide_and_stream fin F rho ux uz).1) z x ≠ 0) :
    (collide_and_stream fin F rho ux uz).2.1 z x
      = ∑ i, (collide_and_stream fin F rho ux uz).1 i z x
  ∧ (collide_and_stream fin F rho ux uz).2.1 z x
      * (collide_and_stream fin F rho ux uz).2.2.1 z x
      = ∑ i, (cX i : ℚ) * (collide_and_stream fin F rho ux uz).1 i z x
  ∧ (collide_and_stream fin F rho ux uz).2.1 z x
      * (collide_and_stream fin F rho ux uz).2.2.2 z x
      = ∑ i, (cZ i : ℚ) * (collide_and_stream fin F rho ux uz).1 i z x := by
  have hr2 : recRho (bounceBack (combinedSolid fin)
      (stream (collide F rho ux uz))) z x ≠ 0 := hr
  refine ⟨rfl, ?_, ?_⟩
  · show recRho _ z x * recUx (combinedSolid fin) _ z x = _
    rw [recUx, if_neg (by simp [hs]), recUxRaw]
    rw [mul_comm, div_mul_cancel₀ _ hr2]
    rfl
  · show recRho _ z x * recUz (combinedSolid fin) _ z x = _
    rw [recUz, if_neg (by simp [hs]), recUzRaw]
    rw [mul_comm, div_mul_cancel₀ _ hr2]
    rfl

/-- Witness for C4: the amended identities hold concretely at the fluid
node `(1, 0)` after one step from the uniform rest state, where the
recovered density is `1 ≠ 0`. -/
theorem C4_recovery_moment_identities_witness :
    combinedSolid emptyMask 1 0 = false
  ∧ recRho ((collide_and_stream emptyMask restPop oneField zeroField zeroField).1) 1 0 ≠ 0
  ∧ (collide_and_stream emptyMask restPop oneField zeroField zeroField).2.1 1 0
      * (collide_and_stream emptyMask restPop oneField zeroField zeroField).2.2.1 1 0
    = ∑ i, (cX i : ℚ)
        * (collide_and_stream emptyMask restPop oneField zeroField zeroField).1 i 1 0 := by
  have h1 : combinedSolid emptyMask 1 0 = false := by decide
  have h2 : recRho ((collide_and_stream emptyMask restPop oneField zeroField zeroField).1) 1 0
      ≠ 0 := by
    show recRho (bounceBack (combinedSolid emptyMask)
      (stream (collide restPop oneField zeroField zeroField))) 1 0 ≠ 0
    rw [collide_rest, show stream restPop = restPop from rfl, bounceBack_eq_id, recRho_rest]
    norm_num
  exact ⟨h1, h2,
    (C4_recovery_moment_identities emptyMask restPop oneField zeroField zeroField 1 0 h1 h2).2.1⟩

/-- Claim C5 (counterexample).  As stated the claim requires `Σ_i f_i` at
every individual node to be unchanged by one collision + streaming pass.
For the weighted pulse state concentrated at `(0, 279)` — whose
macroscopic fields are exactly its recovered ones — the node `(0, 0)`
holds mass `0` before the pass and mass `w_1 = 1/9` after it: streaming
moves mass between nodes, so per-node mass is not conserved. -/
theorem C5_per_node_mass_counterexample :
    recRho (stream (collide popPulseRest (recRho popPulseRest)
      (recUxRaw popPulseRest) (recUzRaw popPulseRest))) 0 0
  ≠ recRho popPulseRest 0 0 := by
  have hL : recRho (stream (collide popPulseRest (recRho popPulseRest)
      (recUxRaw popPulseRest) (recUzRaw popPulseRest))) 0 0 = 1/9 := by
    rw [recRho]
    rw [Finset.sum_congr rfl fun i _ => by rw [stream, collide_pulse]]
    rw [show (∑ i, popPulseRest i (0 - (cZ i : ZMod nz)) (0 - (cX i : ZMod nx))) =
      ∑ i, w i * (if (0 - (cZ i : ZMod nz)) = 0 ∧ (0 - (cX i : ZMod nx)) = 279
        then (1:ℚ) else 0) from Finset.sum_congr rfl fun i _ => by rw [popPulseRest]]
    simp +decide [Fin.sum_univ_succ, w, cX, cZ]
  rw [hL, recRho_pulse, if_neg (by decide)]
  norm_num

/-- Claim C5 (amended): for every state whose macroscopic fields are those
recovered from its populations, one BGK collision leaves `Σ_i f_i`
unchanged at every individual node, and collision followed by one
streaming pass leaves the total mass summed over all nodes and all 9
directions unchanged (streaming permutes values across nodes via the
periodic shift, so per-node mass moves but the lattice total is exact). -/
theorem C5_mass_conservation (F : Pop) (rho ux uz : Field)
    (hrho : ∀ z x, rho z x = recRho F z x)
    (_hux : ∀ z x, ux z x = recUxRaw F z x)
    (_huz : ∀ z x, uz z x = recUzRaw F z x) :
    (∀ z x, recRho (collide F rho ux uz) z x = recRho F z x)
  ∧ (∑ i, ∑ z, ∑ x, stream (collide F rho ux uz) i z x
      = ∑ i, ∑ z, ∑ x, F i z x) := by
  have hnode : ∀ z x, recRho (collide F rho ux uz) z x = recRho F z x := by
    intro z x
    rw [recRho]
    rw [show (∑ i, collide F rho ux uz i z x)
        = (1 - omega) * (∑ i, F i z x) + omega * (∑ i, equilibrium rho ux uz i z x) by
      rw [Finset.mul_sum, Finset.mul_sum, ← Finset.sum_add_distrib]
      rfl]
    rw [sum_equilibrium, hrho, recRho]
    ring
  refine ⟨hnode, ?_⟩
  have hshift : ∀ (G : Pop) (i : Fin 9),
      (∑ z, ∑ x, stream G i z x) = ∑ z, ∑ x, G i z x := by
    intro G i
    simp only [stream]
    rw [show (∑ z, ∑ x, G i (z - (cZ i : ZMod nz)) (x - (cX i : ZMod nx)))
        = ∑ z, ∑ x, G i (z - (cZ i : ZMod nz)) x from
      Finset.sum_congr rfl fun z _ =>
        (Equiv.subRight ((cX i : ZMod nx))).sum_comp (G i (z - (cZ i : ZMod nz)))]
    exact (Equiv.subRight ((cZ i : ZMod nz))).sum_comp fun z => ∑ x, G i z x
  have hcomm : ∀ (H : Pop), (∑ i, ∑ z, ∑ x, H i z x) = ∑ z, ∑ x, ∑ i, H i z x := by
    intro H
    rw [Finset.sum_comm]
    exact Finset.sum_congr rfl fun z _ => Finset.sum_comm
  rw [Finset.sum_congr rfl fun i _ => hshift (collide F rho ux uz) i]
  rw [hcomm (collide F rho ux uz), hcomm F]
  exact Finset.sum_congr rfl fun z _ => Finset.sum_congr rfl fun x _ => hnode z x

/-- Witness for C5: the uniform rest state has exactly its recovered
fields, and the conservation facts instantiate there. -/
theorem C5_mass_conservation_witness :
    oneField 1 0 = recRho restPop 1 0
  ∧ recRho (collide restPop oneField zeroField zeroField) 1 0 = recRho restPop 1 0
  ∧ (∑ i, ∑ z, ∑ x, stream (collide restPop oneField zeroField zeroField) i z x
      = ∑ i, ∑ z, ∑ x, restPop i z x) := by
  have h1 : ∀ (z : ZMod nz) (x : ZMod nx), oneField z x = recRho restPop z x := by
    intro z x
    rw [recRho_rest]; rfl
  have h2 : ∀ (z : ZMod nz) (x : ZMod nx), zeroField z x = recUxRaw restPop z x := by
    intro z x
    rw [recUxRaw_rest]; rfl
  have h3 : ∀ (z : ZMod nz) (x : ZMod nx), zeroField z x = recUzRaw restPop z x := by
    intro z x
    rw [recUzRaw_rest]; rfl
  obtain ⟨ha, hb⟩ := C5_mass_conservation restPop oneField zeroField zeroField h1 h2 h3
  exact ⟨h1 1 0, ha 1 0, hb⟩

/-- Claim C6: at every node the equilibrium populations satisfy
`Σ_i feq_i = rho`, `Σ_i c_{i,x} feq_i = rho*ux`, `Σ_i c_{i,z} feq_i = rho*uz`,
and at `rho = 1`, `ux = uz = 0` the function returns exactly `feq_i = w_i`
for each of the 9 directions. -/
theorem C6_equilibrium_moments (rho ux uz : Field) (z : ZMod nz) (x : ZMod nx) :
    (∑ i, equilibrium rho ux uz i z x = rho z x)
  ∧ (∑ i, (cX i : ℚ) * equilibrium rho ux uz i z x = rho z x * ux z x)
  ∧ (∑ i, (cZ i : ℚ) * equilibrium rho ux uz i z x = rho z x * uz z x)
  ∧ (∀ i, equilibrium oneField zeroField zeroField i z x = w i) := by
  refine ⟨sum_equilibrium rho ux uz z x, ?_, ?_, fun i => by rw [equilibrium_rest_eq]; rfl⟩
  · simp [Fin.sum_univ_succ, equilibrium, w, cX, cZ]
    ring
  · simp [Fin.sum_univ_succ, equilibrium, w, cX, cZ]
    ring

/-- Claim C7: if the populations at every node equal the equilibrium of
the uniform at-rest state (`rho = 1`, `ux = uz = 0`) and the combined
solid set is empty, one full step (collision, streaming, bounce-back,
recovery) returns `rho = 1`, `ux = 0`, `uz = 0` at every node. -/
theorem C7_rest_state_fixed_point (z : ZMod nz) (x : ZMod nx) :
    (stepWithSolid emptyMask (equilibrium oneField zeroField zeroField)
      oneField zeroField zeroField).2.1 z x = 1
  ∧ (stepWithSolid emptyMask (equilibrium oneField zeroField zeroField)
      oneField zeroField zeroField).2.2.1 z x = 0
  ∧ (stepWithSolid emptyMask (equilibrium oneField zeroField zeroField)
      oneField zeroField zeroField).2.2.2 z x = 0 := by
  have hstep : bounceBack emptyMask (stream (collide
      (equilibrium oneField zeroField zeroField) oneField zeroField zeroField))
      = restPop := by
    rw [equilibrium_rest_eq, collide_rest, show stream restPop = restPop from rfl,
      bounceBack_eq_id]
  refine ⟨?_, ?_, ?_⟩
  · show recRho _ z x = 1
    rw [hstep, recRho_rest]
  · show recUx emptyMask _ z x = 0
    rw [hstep, recUx, if_neg (by simp [emptyMask]), recUxRaw_rest]
  · show recUz emptyMask _ z x = 0
    rw [hstep, recUz, if_neg (by simp [emptyMask]), recUzRaw_rest]

/-- Claim C8: for every simulated time `t`, every node marked by the fin
geometry generator lies strictly inside the interior: `1 ≤ iz ≤ nz - 2`
and `1 ≤ ix ≤ nx - 2`, so the fin never overwrites the static wall rows
or the outermost columns. -/
theorem C8_fin_mask_interior_only (t : ℝ) (iz ix : ℤ) :
    ¬ fin_mask t iz ix
  ∨ (1 ≤ iz ∧ iz ≤ (nz : ℤ) - 2 ∧ 1 ≤ ix ∧ ix ≤ (nx : ℤ) - 2) := by
  rcases Classical.em (fin_mask t iz ix) with h | h
  · right
    obtain ⟨idx, hidx, k, hk, hx1, hx2, hz1, hz2, hxe, hze⟩ := h
    subst hxe
    subst hze
    refine ⟨hz1, by omega, by omega, by omega⟩
  · exact Or.inl h

/-- Claim C9: the fin mask generated at time `t` is identical to the fin
mask generated at time `t + 1/f_wave`; the geometry generator is periodic
in time with period `1/f_wave`, exactly. -/
theorem C9_fin_mask_periodic (t : ℝ) (iz ix : ℤ) :
    fin_mask (t + 1 / f_wave) iz ix ↔ fin_mask t iz ix := by
  simp only [fin_mask, ixOf_period, izOf_period]

/-- Claim C10: the degenerate-tangent fallback branch of the geometry
generator is unreachable: for every time and every column the tangent
norm `hypot(1, dzdx) = sqrt(1 + dzdx²)` is at least `1`, hence nonzero,
and the normal is always the rotated normalised tangent
`(dzdx/norm_t, -(1/norm_t))`, never the fallback vertical `(0, 1)`. -/
theorem C10_tangent_never_degenerate (t : ℝ) (idx : ℕ) :
    1 ≤ norm_t t idx
  ∧ normalHat t idx = (dzdx t idx / norm_t t idx, -(1 / norm_t t idx)) := by
  have h1 : 1 ≤ norm_t t idx := by
    have h2 : (1 : ℝ) ≤ 1 ^ 2 + dzdx t idx ^ 2 := by nlinarith [sq_nonneg (dzdx t idx)]
    calc (1 : ℝ) = Real.sqrt 1 := Real.sqrt_one.symm
    _ ≤ Real.sqrt (1 ^ 2 + dzdx t idx ^ 2) := Real.sqrt_le_sqrt h2
    _ = norm_t t idx := rfl
  exact ⟨h1, by rw [normalHat, if_neg (ne_of_gt (lt_of_lt_of_le one_pos h1))]⟩

end Ripple
